import Mathlib

/-!
# Verification of the DKG ritual coordination engine (nucypher-contracts)

The repository ships only the Python test-suite for the Coordinator,
FlatRateFeeModel and InfractionCollector contracts; the contract sources
themselves are absent.  The definitions below are therefore modelled from
the specification (spec.md §3–§4.3), with the observable behaviour
(error strings, event shapes, the `RitualState` enumeration and its
ordering) cross-checked against `tests/test_coordinator.py` and
`tests/test_infraction.py`.

Conventions of the embedding:
* addresses and timestamps are `Nat`; opaque byte blobs are `List Nat`;
* the keccak digest of an opaque blob is treated as injective (the spec
  handles transcripts/aggregations as "an opaque byte blob with a
  verifiable digest"), so it is embedded as the identity map on blobs;
* each externally callable operation takes the pre-state and the caller
  plus the current block timestamp and returns
  `Except String (World × List Event)`: `Except.error reason` is a
  revert (no state change — the transactional all-or-nothing semantics
  of the chain), `Except.ok` carries the post-state and the events the
  call emitted.
-/

/-- An account / contract address. -/
abbrev Address := Nat

/-- An opaque byte blob (transcripts, aggregated payloads, public keys). -/
abbrev Bytes := List Nat

/-- Modelled from the spec: transcripts and aggregations are "opaque byte
blobs with a verifiable digest"; the digest function is treated as
injective and embedded as the identity on blobs. -/
def keccakDigest (b : Bytes) : Bytes := b

/-- The ritual state enumeration, in the order fixed by
`tests/test_coordinator.py` (`RitualState`, values 0..6). -/
inductive RitualState where
  | NON_INITIATED
  | DKG_AWAITING_TRANSCRIPTS
  | DKG_AWAITING_AGGREGATIONS
  | DKG_TIMEOUT
  | DKG_INVALID
  | ACTIVE
  | EXPIRED
deriving Repr, DecidableEq

/-- Per-ritual per-provider record (spec §3 "Participant"). -/
structure Participant where
  provider : Address
  transcript : Bytes
  aggregated : Bool
  decryptionRequestStaticKey : Bytes
deriving Repr, DecidableEq

/-- The central entity (spec §3 "Ritual"); field layout follows the tuple
checked in `test_initiate_ritual`. -/
structure Ritual where
  initiator : Address
  startTimestamp : Nat
  endTimestamp : Nat
  totalTranscripts : Nat
  totalAggregations : Nat
  authority : Address
  dkgSize : Nat
  threshold : Nat
  aggregationMismatch : Bool
  accessController : Address
  publicKey : Bytes
  aggregatedTranscript : Bytes
  participants : List Participant
deriving Repr, DecidableEq

/-- Events emitted by the engine (spec §6). -/
inductive Event where
  | StartRitual (ritualId : Nat) (authority : Address) (participants : List Address)
  | TranscriptPosted (ritualId : Nat) (node : Address) (digest : Bytes)
  | AggregationPosted (ritualId : Nat) (node : Address) (digest : Bytes)
  | EndRitual (ritualId : Nat) (successful : Bool)
  | ParticipantPublicKeySet (ritualId : Nat) (participant : Address) (publicKey : Bytes)
deriving Repr, DecidableEq

/-- Association-list lookup with 0 as the default (Solidity mapping). -/
def alookup {α : Type} [DecidableEq α] (l : List (α × Nat)) (k : α) : Nat :=
  match l.find? (fun p => p.1 = k) with
  | some p => p.2
  | none => 0

/-- Association-list update (Solidity mapping write): replaces the first
binding of `k`, or appends one. -/
def aset {α : Type} [DecidableEq α] (l : List (α × Nat)) (k : α) (v : Nat) :
    List (α × Nat) :=
  match l with
  | [] => [(k, v)]
  | p :: rest => if p.1 = k then (k, v) :: rest else p :: aset rest k v

/-- ERC20 token state restricted to what the engine touches: balances and
allowances. -/
structure TokenState where
  balances : List (Address × Nat)
  allowances : List ((Address × Address) × Nat)
deriving Repr, DecidableEq

def TokenState.balanceOf (t : TokenState) (a : Address) : Nat :=
  alookup t.balances a

def TokenState.allowance (t : TokenState) (owner spender : Address) : Nat :=
  alookup t.allowances (owner, spender)

/-- ERC20 `transferFrom` (spender moves `amount` from `owner` to `to`);
reverts with the OpenZeppelin custom-error names seen in the tests. -/
def TokenState.transferFrom (t : TokenState) (owner spender toAddr : Address)
    (amount : Nat) : Except String TokenState :=
  if t.allowance owner spender < amount then .error "ERC20InsufficientAllowance"
  else if t.balanceOf owner < amount then .error "ERC20InsufficientBalance"
  else
    let bs := aset t.balances owner (t.balanceOf owner - amount)
    .ok { balances := aset bs toAddr (alookup bs toAddr + amount),
          allowances := aset t.allowances (owner, spender)
            (t.allowance owner spender - amount) }

/-- ERC20 `transfer` from `fromAddr`. -/
def TokenState.transfer (t : TokenState) (fromAddr toAddr : Address)
    (amount : Nat) : Except String TokenState :=
  if t.balanceOf fromAddr < amount then .error "ERC20InsufficientBalance"
  else
    let bs := aset t.balances fromAddr (t.balanceOf fromAddr - amount)
    .ok { balances := aset bs toAddr (alookup bs toAddr + amount),
          allowances := t.allowances }

/-- Modelled from the spec: combined state of the Coordinator, the single
FlatRateFeeModel it is wired to, the ERC20 token, and the
InfractionCollector (the contract sources are absent from the repo). -/
structure World where
  /-- DKG global timeout (Coordinator `timeout`). -/
  timeout : Nat
  /-- Coordinator `maxDkgSize`. -/
  maxDkgSize : Nat
  /-- FlatRateFeeModel `feeRatePerSecond`. -/
  feeRate : Nat
  /-- Address of the fee-model contract (custodian of reserved fees). -/
  feeModelAddr : Address
  /-- Holder of the authorized treasury/withdrawal role of the fee model. -/
  feeModelOwner : Address
  /-- Access controllers approved for use with this coordinator. -/
  approvedControllers : List Address
  /-- Append-only ritual table indexed by sequential id. -/
  rituals : List Ritual
  /-- Provider public-key registrations, in chronological order:
  (provider, ritual id at registration time, key). -/
  providerKeys : List (Address × Nat × Bytes)
  /-- Fee-model ledger: pending fee per ritual id. -/
  pendingFees : List (Nat × Nat)
  /-- Fee-model total of all pending fees. -/
  totalPendingFees : Nat
  /-- ERC20 token state. -/
  token : TokenState
  /-- Infraction flags set: (ritualId, provider, kind); kind 0 is
  MISSING_TRANSCRIPT. -/
  infractions : List (Nat × Address × Nat)
  /-- Rituals for which an infraction report was already filed. -/
  reportedRituals : List Nat
deriving Repr, DecidableEq

def numberOfRituals (w : World) : Nat := w.rituals.length

/-- Ritual state derivation (spec §4.1), evaluated as an ordered cascade:
unknown id, aggregation mismatch, timeout, aggregation complete
(active/expired), transcripts complete, default.  A pure function of the
stored ritual fields and the wall-clock time `now`. -/
def getRitualState (w : World) (ritualId : Nat) (now : Nat) : RitualState :=
  match w.rituals[ritualId]? with
  | none => .NON_INITIATED
  | some r =>
    if r.aggregationMismatch then .DKG_INVALID
    else if r.startTimestamp + w.timeout < now ∧ r.totalAggregations ≠ r.dkgSize then
      .DKG_TIMEOUT
    else if r.totalAggregations = r.dkgSize then
      if r.endTimestamp < now then .EXPIRED else .ACTIVE
    else if r.totalTranscripts = r.dkgSize then .DKG_AWAITING_AGGREGATIONS
    else .DKG_AWAITING_TRANSCRIPTS

/-- Is some public key registered for this provider? -/
def isProviderPublicKeySet (w : World) (p : Address) : Bool :=
  w.providerKeys.any (fun e => e.1 = p)

/-- The key of a provider as of ritual `rid`: the latest registration whose
generation (ritual id at registration time) is at most `rid`. -/
def getProviderPublicKey (w : World) (p : Address) (rid : Nat) : Option Bytes :=
  (w.providerKeys.filter (fun e => e.1 = p ∧ e.2.1 ≤ rid)).getLast?.map
    (fun e => e.2.2)

/-- Registers the caller's public key for the next ritual generation
(spec §4.1 `setProviderPublicKey`). -/
def setProviderPublicKey (w : World) (sender : Address) (key : Bytes) :
    Except String (World × List Event) :=
  let rid := numberOfRituals w
  .ok ({ w with providerKeys := w.providerKeys ++ [(sender, rid, key)] },
       [.ParticipantPublicKeySet rid sender key])

/-- Strict ascending order of the provider addresses. -/
def strictlySorted : List Address → Bool
  | [] => true
  | [_] => true
  | a :: b :: rest => a < b && strictlySorted (b :: rest)

/-- Ritual cost (spec §4.2): `rate * duration * participantCount`. -/
def getRitualCost (w : World) (participantCount duration : Nat) : Nat :=
  w.feeRate * duration * participantCount

/-- The participant table a new ritual starts with. -/
def freshParticipants (providers : List Address) : List Participant :=
  providers.map (fun p =>
    { provider := p, transcript := [], aggregated := false,
      decryptionRequestStaticKey := [] })

/-- The ritual record written at initiation. -/
def newRitual (s : Address) (providers : List Address) (auth : Address)
    (dur : Nat) (ac : Address) (now : Nat) : Ritual :=
  { initiator := s
    startTimestamp := now
    endTimestamp := now + dur
    totalTranscripts := 0
    totalAggregations := 0
    authority := auth
    dkgSize := providers.length
    threshold := providers.length / 2 + 1
    aggregationMismatch := false
    accessController := ac
    publicKey := []
    aggregatedTranscript := []
    participants := freshParticipants providers }

/-- Ritual update on a successful transcript submission. -/
def bumpTranscript (r : Ritual) (ps : List Participant) : Ritual :=
  { r with participants := ps, totalTranscripts := r.totalTranscripts + 1 }

/-- Ritual update on the first aggregation submission: the payload becomes
the reference value and the key the candidate public key. -/
def aggFirst (r : Ritual) (ps : List Participant) (pay pk : Bytes) : Ritual :=
  { r with participants := ps, totalAggregations := 1,
           aggregatedTranscript := pay, publicKey := pk }

/-- Ritual update on a divergent aggregation submission: the mismatch flag
is set permanently. -/
def aggMismatch (r : Ritual) (ps : List Participant) : Ritual :=
  { r with participants := ps,
           totalAggregations := r.totalAggregations + 1,
           aggregationMismatch := true }

/-- Ritual update on a matching aggregation submission. -/
def aggNext (r : Ritual) (ps : List Participant) : Ritual :=
  { r with participants := ps,
           totalAggregations := r.totalAggregations + 1 }

/-- `initiateRitual` (spec §4.1): preconditions checked in order — size,
duration, registered keys, sortedness, fee transfer, approved access
controller — then the ritual record is allocated under the next
sequential id. -/
def initiateRitual (w : World) (sender : Address) (providers : List Address)
    (authority : Address) (duration : Nat) (accessController : Address)
    (now : Nat) : Except String (World × List Event) :=
  if ¬ (2 ≤ providers.length ∧ providers.length ≤ w.maxDkgSize) then
    .error "Invalid number of nodes"
  else if duration = 0 then .error "Invalid ritual duration"
  else if ¬ providers.all (fun p => isProviderPublicKeySet w p) then
    .error "Provider has not set their public key"
  else if ¬ strictlySorted providers then .error "Providers must be sorted"
  else
    let cost := getRitualCost w providers.length duration
    match w.token.transferFrom sender w.feeModelAddr w.feeModelAddr cost with
    | .error e => .error e
    | .ok t' =>
      if ¬ w.approvedControllers.contains accessController then
        .error "Access controller not approved"
      else
        let rid := numberOfRituals w
        let r := newRitual sender providers authority duration
          accessController now
        .ok ({ w with rituals := w.rituals ++ [r],
                      pendingFees := aset w.pendingFees rid cost,
                      totalPendingFees := w.totalPendingFees + cost,
                      token := t' },
             [.StartRitual rid authority providers])

/-- Applies `f` to the participant record of `addr`; fails when `addr` is
not part of the ritual or when `f` rejects the record. -/
def updateParticipant (ps : List Participant) (addr : Address)
    (f : Participant → Except String Participant) :
    Except String (List Participant) :=
  match ps with
  | [] => .error "Participant not part of ritual"
  | p :: rest =>
    if p.provider = addr then (f p).map (· :: rest)
    else (updateParticipant rest addr f).map (p :: ·)

/-- The write-once transcript store of a single participant record. -/
def transcriptUpd (transcript : Bytes) (p : Participant) :
    Except String Participant :=
  if ¬ p.transcript = [] then .error "Node already posted transcript"
  else .ok { p with transcript := transcript }

/-- The write-once aggregation marker of a single participant record. -/
def aggregationUpd (decryptionRequestStaticKey : Bytes) (p : Participant) :
    Except String Participant :=
  if p.aggregated then .error "Node already posted aggregation"
  else .ok { p with aggregated := true,
                    decryptionRequestStaticKey := decryptionRequestStaticKey }

/-- `postTranscript` (spec §4.1): requires the ritual to be awaiting
transcripts, the caller to be a participant who has not posted yet, and a
non-empty transcript; stores the transcript and bumps the counter. -/
def postTranscript (w : World) (sender : Address) (rid : Nat)
    (transcript : Bytes) (now : Nat) : Except String (World × List Event) :=
  if ¬ getRitualState w rid now = .DKG_AWAITING_TRANSCRIPTS then
    .error "Not waiting for transcripts"
  else match w.rituals[rid]? with
  | none => .error "Not waiting for transcripts"
  | some r =>
    if transcript = [] then .error "Invalid transcript"
    else
      match updateParticipant r.participants sender (transcriptUpd transcript) with
      | .error e => .error e
      | .ok ps =>
        .ok ({ w with rituals := w.rituals.set rid (bumpTranscript r ps) },
             [.TranscriptPosted rid sender (keccakDigest transcript)])

/-- `postAggregation` (spec §4.1): requires the ritual to be awaiting
aggregations and the caller to be a participant who has not aggregated.
The first submission records the reference payload and the candidate DKG
public key; a later submission whose digest diverges from the reference
flips `aggregationMismatch` permanently and ends the ritual as failed
(the call itself succeeds); the last matching submission ends the ritual
as successful. -/
def postAggregation (w : World) (sender : Address) (rid : Nat)
    (aggregatedPayload dkgPublicKey decryptionRequestStaticKey : Bytes)
    (now : Nat) : Except String (World × List Event) :=
  if ¬ getRitualState w rid now = .DKG_AWAITING_AGGREGATIONS then
    .error "Not waiting for aggregations"
  else match w.rituals[rid]? with
  | none => .error "Not waiting for aggregations"
  | some r =>
    match updateParticipant r.participants sender
        (aggregationUpd decryptionRequestStaticKey) with
    | .error e => .error e
    | .ok ps =>
      let posted : Event := .AggregationPosted rid sender
        (keccakDigest aggregatedPayload)
      if r.totalAggregations = 0 then
        let r' := aggFirst r ps aggregatedPayload dkgPublicKey
        if r.dkgSize = 1 then
          .ok ({ w with rituals := w.rituals.set rid r' },
               [posted, .EndRitual rid true])
        else .ok ({ w with rituals := w.rituals.set rid r' }, [posted])
      else if ¬ keccakDigest aggregatedPayload
                = keccakDigest r.aggregatedTranscript then
        .ok ({ w with rituals := w.rituals.set rid (aggMismatch r ps) },
             [posted, .EndRitual rid false])
      else
        let r' := aggNext r ps
        if r.totalAggregations + 1 = r.dkgSize then
          .ok ({ w with rituals := w.rituals.set rid r' },
               [posted, .EndRitual rid true])
        else .ok ({ w with rituals := w.rituals.set rid r' }, [posted])

/-- Fee settlement (spec §4.2 `settleSuccess`/`settleFailure`, exposed in
the tests as `processPendingFee`): permissionless; requires a terminal
state.  Success keeps the whole fee with the model; failure refunds the
pending fee minus the time-proportional deduction
`pending * elapsed / duration` to the initiator.  Both clear the ritual's
pending entry and shrink `totalPendingFees`. -/
def processPendingFee (w : World) (sender : Address) (rid : Nat) (now : Nat) :
    Except String (World × List Event) :=
  match w.rituals[rid]? with
  | none => .error "Ritual is not ended"
  | some r =>
    let st := getRitualState w rid now
    let pending := alookup w.pendingFees rid
    if st = .ACTIVE ∨ st = .EXPIRED then
      .ok ({ w with pendingFees := aset w.pendingFees rid 0,
                    totalPendingFees := w.totalPendingFees - pending }, [])
    else if st = .DKG_TIMEOUT ∨ st = .DKG_INVALID then
      let duration := r.endTimestamp - r.startTimestamp
      let elapsed := now - r.startTimestamp
      let deduction := pending * elapsed / duration
      let refund := pending - deduction
      match w.token.transfer w.feeModelAddr r.initiator refund with
      | .error e => .error e
      | .ok t' =>
        .ok ({ w with token := t',
                      pendingFees := aset w.pendingFees rid 0,
                      totalPendingFees := w.totalPendingFees - pending }, [])
    else .error "Ritual is not ended"

/-- `withdrawTokens` (spec §4.2): restricted to the authorized treasury
role of the fee model; never touches the pending reservations. -/
def withdrawTokens (w : World) (sender : Address) (amount : Nat) :
    Except String (World × List Event) :=
  if ¬ sender = w.feeModelOwner then .error "Caller is not authorized"
  else if w.token.balanceOf w.feeModelAddr - w.totalPendingFees < amount then
    .error "Can't withdraw pending fees"
  else match w.token.transfer w.feeModelAddr sender amount with
  | .error e => .error e
  | .ok t' => .ok ({ w with token := t' }, [])

/-- `reportMissingTranscript` (spec §4.3): requires the ritual to have
timed out and no report to have been filed for it yet; records a
MISSING_TRANSCRIPT infraction for each alleged participant confirmed to
have no transcript, and marks the ritual as reported (one-shot per
ritual). -/
def reportMissingTranscript (w : World) (sender : Address) (rid : Nat)
    (alleged : List Address) (now : Nat) : Except String (World × List Event) :=
  if ¬ getRitualState w rid now = .DKG_TIMEOUT then
    .error "Ritual must have failed"
  else if rid ∈ w.reportedRituals then
    .error "Infraction already reported"
  else match w.rituals[rid]? with
  | none => .error "Ritual must have failed"
  | some r =>
    let missing := alleged.filter (fun a =>
      match r.participants.find? (fun p => p.provider = a) with
      | some p => p.transcript = []
      | none => false)
    .ok ({ w with infractions := w.infractions ++ missing.map (fun a => (rid, a, 0)),
                  reportedRituals := rid :: w.reportedRituals }, [])

/-- Hides the transcript payload when `includeTranscript` is false. -/
def elideTranscript (includeTranscript : Bool) (p : Participant) : Participant :=
  if includeTranscript then p else { p with transcript := [] }

/-- `getParticipants` (spec §4.1): read-only pagination over the
participant list; `maxResults = 0` means all remaining entries;
`includeTranscript = false` elides the transcript payloads. -/
def getParticipants (w : World) (rid startIndex maxResults : Nat)
    (includeTranscript : Bool) : Except String (List Participant) :=
  match w.rituals[rid]? with
  | none => .error "Non-existent ritual"
  | some r =>
    if 0 < r.participants.length ∧ r.participants.length ≤ startIndex then
      .error "Invalid start index"
    else
      let remaining := r.participants.drop startIndex
      let page := if maxResults = 0 then remaining else remaining.take maxResults
      .ok (page.map (elideTranscript includeTranscript))

/-- One externally submitted transaction, with its caller and block
timestamp. -/
inductive Op where
  | setProviderPublicKey (sender : Address) (key : Bytes)
  | initiateRitual (sender : Address) (providers : List Address)
      (authority : Address) (duration : Nat) (accessController : Address)
      (now : Nat)
  | postTranscript (sender : Address) (rid : Nat) (transcript : Bytes)
      (now : Nat)
  | postAggregation (sender : Address) (rid : Nat)
      (payload dkgPublicKey decryptionRequestStaticKey : Bytes) (now : Nat)
  | processPendingFee (sender : Address) (rid : Nat) (now : Nat)
  | withdrawTokens (sender : Address) (amount : Nat)
  | reportMissingTranscript (sender : Address) (rid : Nat)
      (alleged : List Address) (now : Nat)
  | tokenApprove (sender spender : Address) (amount : Nat)
  | tokenTransfer (sender toAddr : Address) (amount : Nat)
deriving Repr

/-- Dispatches one transaction. -/
def applyOp (w : World) : Op → Except String (World × List Event)
  | .setProviderPublicKey s k => setProviderPublicKey w s k
  | .initiateRitual s ps a d ac now => initiateRitual w s ps a d ac now
  | .postTranscript s rid t now => postTranscript w s rid t now
  | .postAggregation s rid pay pk drsk now =>
      postAggregation w s rid pay pk drsk now
  | .processPendingFee s rid now => processPendingFee w s rid now
  | .withdrawTokens s amount => withdrawTokens w s amount
  | .reportMissingTranscript s rid alleged now =>
      reportMissingTranscript w s rid alleged now
  | .tokenApprove s spender amount =>
      .ok ({ w with token := { w.token with
               allowances := aset w.token.allowances (s, spender) amount } }, [])
  | .tokenTransfer s toAddr amount =>
      match w.token.transfer s toAddr amount with
      | .error e => .error e
      | .ok t' => .ok ({ w with token := t' }, [])

/-- Transactional semantics: a reverted transaction leaves the state
unchanged. -/
def stepOp (w : World) (op : Op) : World :=
  match applyOp w op with
  | .ok (w', _) => w'
  | .error _ => w

/-- Runs a sequence of transactions. -/
def runOps (w : World) (ops : List Op) : World := ops.foldl stepOp w

/-- A fresh deployment: no rituals, no keys, no pending fees, no
infractions. -/
def World.init (timeout maxDkgSize feeRate : Nat)
    (feeModelAddr feeModelOwner : Address) (approvedControllers : List Address)
    (token : TokenState) : World :=
  { timeout := timeout, maxDkgSize := maxDkgSize, feeRate := feeRate,
    feeModelAddr := feeModelAddr, feeModelOwner := feeModelOwner,
    approvedControllers := approvedControllers, rituals := [],
    providerKeys := [], pendingFees := [], totalPendingFees := 0,
    token := token, infractions := [], reportedRituals := [] }

/-- Number of participants of a ritual that have posted a transcript. -/
def countTranscripts (ps : List Participant) : Nat :=
  (ps.filter (fun p => !p.transcript.isEmpty)).length

/-- Number of participants of a ritual that have posted an aggregation. -/
def countAggregations (ps : List Participant) : Nat :=
  (ps.filter (fun p => p.aggregated)).length

/-- Bookkeeping invariant of a single ritual record: the stored size and
the two monotone counters agree with the participant table. -/
def RitualWF (r : Ritual) : Prop :=
  r.participants.length = r.dkgSize ∧
  countTranscripts r.participants = r.totalTranscripts ∧
  countAggregations r.participants = r.totalAggregations

/-- Bookkeeping invariant of the whole engine state. -/
def WorldWF (w : World) : Prop := ∀ r ∈ w.rituals, RitualWF r

/-- Shape invariant used for the threshold claim: the threshold of every
ritual is `floor(n/2) + 1` for its stored size. -/
def ThresholdWF (w : World) : Prop :=
  ∀ r ∈ w.rituals, r.threshold = r.dkgSize / 2 + 1 ∧
    r.participants.length = r.dkgSize

/-- How one transaction can change the ritual table: every existing ritual
keeps its id, its threshold, its size and its participant count, its
mismatch flag can only go from false to true, and its bookkeeping
invariant is preserved; any ritual that appears fresh is a well-formed
new ritual with the derived threshold. -/
def StepPreserves (w w' : World) : Prop :=
  (∀ (rid : Nat) (r : Ritual), w.rituals[rid]? = some r →
    ∃ r', w'.rituals[rid]? = some r' ∧
      r'.threshold = r.threshold ∧ r'.dkgSize = r.dkgSize ∧
      r'.participants.length = r.participants.length ∧
      (r.aggregationMismatch = true → r'.aggregationMismatch = true) ∧
      (RitualWF r → RitualWF r')) ∧
  (∀ (rid : Nat) (r' : Ritual), w'.rituals[rid]? = some r' →
      (∃ r, w.rituals[rid]? = some r) ∨
      (RitualWF r' ∧ r'.threshold = r'.dkgSize / 2 + 1))

/-! ## A small concrete deployment, mirroring the test fixtures:
two providers (addresses 1 and 2), initiator 10, fee model at address 100
owned by 11, one approved access controller 50, fee rate 1, timeout 1000,
a ritual of duration 5 initiated at time 0 (cost 1 * 5 * 2 = 10). -/

def tokEx : TokenState := { balances := [(10, 100)], allowances := [] }

def wEx0 : World := World.init 1000 31 1 100 11 [50] tokEx

def opsEx : List Op :=
  [.setProviderPublicKey 1 [9], .setProviderPublicKey 2 [8],
   .tokenApprove 10 100 10, .initiateRitual 10 [1, 2] 10 5 50 0]

/-- Ritual 0 initiated, awaiting transcripts. -/
def wEx : World := runOps wEx0 opsEx

def rEx : Ritual := (wEx.rituals[0]?).getD (newRitual 0 [] 0 0 0 0)

/-- Both transcripts posted, awaiting aggregations. -/
def wExB : World :=
  runOps wEx [.postTranscript 1 0 [3] 1, .postTranscript 2 0 [3] 1]

def rExB : Ritual := (wExB.rituals[0]?).getD (newRitual 0 [] 0 0 0 0)

/-- One aggregation posted; the reference payload is `[4]`. -/
def wExC : World := stepOp wExB (.postAggregation 1 0 [4] [5] [6] 2)

def rExC : Ritual := (wExC.rituals[0]?).getD (newRitual 0 [] 0 0 0 0)

def pExC : Participant :=
  (rExC.participants.find? (fun q => q.provider = 2)).getD
    { provider := 0, transcript := [], aggregated := false,
      decryptionRequestStaticKey := [] }

/-- The second node posts the divergent payload `[9]`: permanent
mismatch. -/
def wExInvalid : World := stepOp wExC (.postAggregation 2 0 [9] [5] [6] 2)

def rExInvalid : Ritual :=
  (wExInvalid.rituals[0]?).getD (newRitual 0 [] 0 0 0 0)

/-! ## Helper lemmas about the mapping embedding -/

theorem alookup_aset_self {α : Type} [DecidableEq α] (l : List (α × Nat))
    (k : α) (v : Nat) : alookup (aset l k v) k = v := by
  induction l with
  | nil => simp [aset, alookup, List.find?]
  | cons p rest ih =>
    by_cases hp : p.1 = k
    · simp [aset, alookup, List.find?, hp]
    · simpa [aset, alookup, List.find?, hp] using ih

theorem alookup_aset_ne {α : Type} [DecidableEq α] (l : List (α × Nat))
    (k k' : α) (v : Nat) (hne : ¬ k' = k) :
    alookup (aset l k v) k' = alookup l k' := by
  induction l with
  | nil =>
    have hne' : ¬ k = k' := fun h => hne h.symm
    simp [aset, alookup, List.find?, hne']
  | cons p rest ih =>
    have hne' : ¬ k = k' := fun h => hne h.symm
    by_cases hp : p.1 = k
    · have hp' : ¬ p.1 = k' := by rw [hp]; intro hk; exact hne hk.symm
      simp [aset, alookup, List.find?, hp, hp', hne', hne]
    · by_cases hq : p.1 = k'
      · simp [aset, alookup, List.find?, hp, hq, hne', hne]
      · simpa [aset, alookup, List.find?, hp, hq, hne', hne] using ih

/-! ## Helper lemmas about participant updates -/

theorem exceptMap_ok {α β : Type} {e : Except String α} {f : α → β} {b : β}
    (h : e.map f = .ok b) : ∃ a, e = .ok a ∧ b = f a := by
  cases e with
  | error err => simp [Except.map] at h
  | ok a => exact ⟨a, rfl, by simpa [Except.map] using h.symm⟩

theorem updateParticipant_ok_of_find (ps : List Participant) (a : Address)
    (f : Participant → Except String Participant) (p q : Participant)
    (hf : ps.find? (fun r => r.provider = a) = some p) (hq : f p = .ok q) :
    ∃ ps', updateParticipant ps a f = .ok ps' := by
  induction ps with
  | nil => simp [List.find?] at hf
  | cons r rest ih =>
    by_cases hr : r.provider = a
    · have hpr : p = r := by
        have h2 := hf
        simp [List.find?_cons, hr] at h2
        exact h2.symm
      subst hpr
      exact ⟨q :: rest, by simp [updateParticipant, hr, hq, Except.map]⟩
    · have hf' : rest.find? (fun r => r.provider = a) = some p := by
        simpa [List.find?_cons, hr] using hf
      obtain ⟨ps', hps'⟩ := ih hf'
      exact ⟨r :: ps', by simp [updateParticipant, hr, hps', Except.map]⟩

theorem updateParticipant_error_of_f_error (ps : List Participant)
    (a : Address) (f : Participant → Except String Participant)
    (p : Participant) (e : String)
    (hf : ps.find? (fun r => r.provider = a) = some p) (hq : f p = .error e) :
    updateParticipant ps a f = .error e := by
  induction ps with
  | nil => simp [List.find?] at hf
  | cons r rest ih =>
    by_cases hr : r.provider = a
    · have hpr : p = r := by
        have h2 := hf
        simp [List.find?_cons, hr] at h2
        exact h2.symm
      subst hpr
      simp [updateParticipant, hr, hq, Except.map]
    · have hf' : rest.find? (fun r => r.provider = a) = some p := by
        simpa [List.find?_cons, hr] using hf
      simp [updateParticipant, hr, ih hf', Except.map]

theorem countTranscripts_cons (p : Participant) (l : List Participant) :
    countTranscripts (p :: l) =
      (if p.transcript.isEmpty then 0 else 1) + countTranscripts l := by
  by_cases h : p.transcript.isEmpty <;>
    simp [countTranscripts, List.filter_cons, h, Nat.add_comm]

theorem countAggregations_cons (p : Participant) (l : List Participant) :
    countAggregations (p :: l) =
      (if p.aggregated then 1 else 0) + countAggregations l := by
  by_cases h : p.aggregated <;>
    simp [countAggregations, List.filter_cons, h, Nat.add_comm]

theorem updateParticipant_transcript_ok (ps : List Participant) (a : Address)
    (t : Bytes) (ps' : List Participant) (ht : ¬ t = [])
    (h : updateParticipant ps a (transcriptUpd t) = .ok ps') :
    ps'.length = ps.length ∧
    countTranscripts ps' = countTranscripts ps + 1 ∧
    countAggregations ps' = countAggregations ps ∧
    ∃ p, ps.find? (fun q => q.provider = a) = some p ∧ p.transcript = [] ∧
      ps'.find? (fun q => q.provider = a) = some { p with transcript := t } := by
  induction ps generalizing ps' with
  | nil => simp [updateParticipant] at h
  | cons r rest ih =>
    by_cases hr : r.provider = a
    · by_cases hrt : r.transcript = []
      · have hstep : updateParticipant (r :: rest) a (transcriptUpd t) =
            (transcriptUpd t r).map (· :: rest) := by
          simp [updateParticipant, hr]
        have hok : transcriptUpd t r = .ok { r with transcript := t } := by
          simp [transcriptUpd, hrt]
        rw [hstep, hok] at h
        simp only [Except.map] at h
        have hps' : ps' = { r with transcript := t } :: rest :=
          ((Except.ok.injEq _ _).mp h).symm
        subst hps'
        refine ⟨by simp, ?_, ?_, r, ?_, hrt, ?_⟩
        · rw [countTranscripts_cons, countTranscripts_cons]
          simp [hrt, List.isEmpty_iff, ht]
          omega
        · rw [countAggregations_cons, countAggregations_cons]
        · simp [List.find?_cons, hr]
        · simp [List.find?_cons, hr]
      · have hstep : updateParticipant (r :: rest) a (transcriptUpd t) =
            (transcriptUpd t r).map (· :: rest) := by
          simp [updateParticipant, hr]
        have herr : transcriptUpd t r =
            .error "Node already posted transcript" := by
          simp [transcriptUpd, hrt]
        rw [hstep, herr] at h
        simp [Except.map] at h
    · have hstep : updateParticipant (r :: rest) a (transcriptUpd t) =
          (updateParticipant rest a (transcriptUpd t)).map (r :: ·) := by
        simp [updateParticipant, hr]
      rw [hstep] at h
      obtain ⟨rest', hrec, hps'⟩ := exceptMap_ok h
      subst hps'
      obtain ⟨hlen, hct, hca, p, hfind, hpt, hfind'⟩ := ih rest' hrec
      refine ⟨by simp [hlen], ?_, ?_, p, ?_, hpt, ?_⟩
      · rw [countTranscripts_cons, countTranscripts_cons, hct]
        omega
      · rw [countAggregations_cons, countAggregations_cons, hca]
      · simpa [List.find?_cons, hr] using hfind
      · simpa [List.find?_cons, hr] using hfind'

theorem updateParticipant_aggregation_ok (ps : List Participant) (a : Address)
    (k : Bytes) (ps' : List Participant)
    (h : updateParticipant ps a (aggregationUpd k) = .ok ps') :
    ps'.length = ps.length ∧
    countTranscripts ps' = countTranscripts ps ∧
    countAggregations ps' = countAggregations ps + 1 ∧
    ∃ p, ps.find? (fun q => q.provider = a) = some p ∧ p.aggregated = false ∧
      ps'.find? (fun q => q.provider = a) =
        some { p with aggregated := true, decryptionRequestStaticKey := k } := by
  induction ps generalizing ps' with
  | nil => simp [updateParticipant] at h
  | cons r rest ih =>
    by_cases hr : r.provider = a
    · by_cases hra : r.aggregated
      · have hstep : updateParticipant (r :: rest) a (aggregationUpd k) =
            (aggregationUpd k r).map (· :: rest) := by
          simp [updateParticipant, hr]
        have herr : aggregationUpd k r =
            .error "Node already posted aggregation" := by
          simp [aggregationUpd, hra]
        rw [hstep, herr] at h
        simp [Except.map] at h
      · have hstep : updateParticipant (r :: rest) a (aggregationUpd k) =
            (aggregationUpd k r).map (· :: rest) := by
          simp [updateParticipant, hr]
        have hok : aggregationUpd k r = .ok { r with aggregated := true, decryptionRequestStaticKey := k } := by
          simp [aggregationUpd, hra]
        rw [hstep, hok] at h
        simp only [Except.map] at h
        have hps' : ps' = { r with aggregated := true, decryptionRequestStaticKey := k } :: rest :=
          ((Except.ok.injEq _ _).mp h).symm
        subst hps'
        refine ⟨by simp, ?_, ?_, r, ?_, by simpa using hra, ?_⟩
        · rw [countTranscripts_cons, countTranscripts_cons]
        · rw [countAggregations_cons, countAggregations_cons]
          simp [hra]
          omega
        · simp [List.find?_cons, hr]
        · simp [List.find?_cons, hr]
    · have hstep : updateParticipant (r :: rest) a (aggregationUpd k) =
          (updateParticipant rest a (aggregationUpd k)).map (r :: ·) := by
        simp [updateParticipant, hr]
      rw [hstep] at h
      obtain ⟨rest', hrec, hps'⟩ := exceptMap_ok h
      subst hps'
      obtain ⟨hlen, hct, hca, p, hfind, hpa, hfind'⟩ := ih rest' hrec
      refine ⟨by simp [hlen], ?_, ?_, p, ?_, hpa, ?_⟩
      · rw [countTranscripts_cons, countTranscripts_cons, hct]
      · rw [countAggregations_cons, countAggregations_cons, hca]
        omega
      · simpa [List.find?_cons, hr] using hfind
      · simpa [List.find?_cons, hr] using hfind'

/-! ## Characterizations of successful operations -/

theorem postTranscript_ok_shape (w : World) (s : Address) (rid : Nat)
    (t : Bytes) (now : Nat) (w' : World) (evs : List Event)
    (h : postTranscript w s rid t now = .ok (w', evs)) :
    getRitualState w rid now = .DKG_AWAITING_TRANSCRIPTS ∧ ¬ t = [] ∧
    ∃ r ps, w.rituals[rid]? = some r ∧
      updateParticipant r.participants s (transcriptUpd t) = .ok ps ∧
      w' = { w with rituals := w.rituals.set rid (bumpTranscript r ps) } ∧
      evs = [.TranscriptPosted rid s (keccakDigest t)] := by
  by_cases hst : getRitualState w rid now = .DKG_AWAITING_TRANSCRIPTS
  · refine ⟨hst, ?_⟩
    simp only [postTranscript] at h
    rw [if_neg (not_not_intro hst)] at h
    cases hr : w.rituals[rid]? with
    | none => simp only [hr] at h; simp at h
    | some r =>
      simp only [hr] at h
      by_cases htt : t = []
      · simp [htt] at h
      · rw [if_neg htt] at h
        refine ⟨htt, r, ?_⟩
        cases hup : updateParticipant r.participants s (transcriptUpd t) with
        | error e => rw [hup] at h; simp at h
        | ok ps =>
          simp only [hup, Except.ok.injEq, Prod.mk.injEq] at h
          exact ⟨ps, rfl, rfl, h.1.symm, h.2.symm⟩
  · simp [postTranscript, hst] at h

theorem postAggregation_ok_shape (w : World) (s : Address) (rid : Nat)
    (pay pk drsk : Bytes) (now : Nat) (w' : World) (evs : List Event)
    (h : postAggregation w s rid pay pk drsk now = .ok (w', evs)) :
    getRitualState w rid now = .DKG_AWAITING_AGGREGATIONS ∧
    ∃ r ps, w.rituals[rid]? = some r ∧
      updateParticipant r.participants s (aggregationUpd drsk) = .ok ps ∧
      ((r.totalAggregations = 0 ∧
        w' = { w with rituals := w.rituals.set rid (aggFirst r ps pay pk) }) ∨
       (¬ r.totalAggregations = 0 ∧
        ¬ keccakDigest pay = keccakDigest r.aggregatedTranscript ∧
        w' = { w with rituals := w.rituals.set rid (aggMismatch r ps) } ∧
        evs = [.AggregationPosted rid s (keccakDigest pay),
               .EndRitual rid false]) ∨
       (¬ r.totalAggregations = 0 ∧
        keccakDigest pay = keccakDigest r.aggregatedTranscript ∧
        w' = { w with rituals := w.rituals.set rid (aggNext r ps) })) := by
  by_cases hst : getRitualState w rid now = .DKG_AWAITING_AGGREGATIONS
  · refine ⟨hst, ?_⟩
    simp only [postAggregation] at h
    rw [if_neg (not_not_intro hst)] at h
    cases hr : w.rituals[rid]? with
    | none => simp only [hr] at h; simp at h
    | some r =>
      simp only [hr] at h
      cases hup : updateParticipant r.participants s (aggregationUpd drsk) with
      | error e => rw [hup] at h; simp at h
      | ok ps =>
        simp only [hup] at h
        refine ⟨r, ps, rfl, hup, ?_⟩
        by_cases hz : r.totalAggregations = 0
        · rw [if_pos hz] at h
          by_cases hone : r.dkgSize = 1
          · rw [if_pos hone] at h
            simp only [Except.ok.injEq, Prod.mk.injEq] at h
            exact Or.inl ⟨hz, h.1.symm⟩
          · rw [if_neg hone] at h
            simp only [Except.ok.injEq, Prod.mk.injEq] at h
            exact Or.inl ⟨hz, h.1.symm⟩
        · rw [if_neg hz] at h
          by_cases hmm : keccakDigest pay = keccakDigest r.aggregatedTranscript
          · rw [if_neg (not_not_intro hmm)] at h
            by_cases hfull : r.totalAggregations + 1 = r.dkgSize
            · rw [if_pos hfull] at h
              simp only [Except.ok.injEq, Prod.mk.injEq] at h
              exact Or.inr (Or.inr ⟨hz, hmm, h.1.symm⟩)
            · rw [if_neg hfull] at h
              simp only [Except.ok.injEq, Prod.mk.injEq] at h
              exact Or.inr (Or.inr ⟨hz, hmm, h.1.symm⟩)
          · rw [if_pos hmm] at h
            simp only [Except.ok.injEq, Prod.mk.injEq] at h
            exact Or.inr (Or.inl ⟨hz, hmm, h.1.symm, h.2.symm⟩)
  · simp [postAggregation, hst] at h

theorem initiateRitual_ok_shape (w : World) (s : Address)
    (providers : List Address) (auth : Address) (dur : Nat) (ac : Address)
    (now : Nat) (w' : World) (evs : List Event)
    (h : initiateRitual w s providers auth dur ac now = .ok (w', evs)) :
    (2 ≤ providers.length ∧ providers.length ≤ w.maxDkgSize) ∧ ¬ dur = 0 ∧
    ∃ t', w.token.transferFrom s w.feeModelAddr w.feeModelAddr
        (getRitualCost w providers.length dur) = .ok t' ∧
      w' = { w with
        rituals := w.rituals ++ [newRitual s providers auth dur ac now],
        pendingFees := aset w.pendingFees (numberOfRituals w)
          (getRitualCost w providers.length dur),
        totalPendingFees := w.totalPendingFees +
          getRitualCost w providers.length dur,
        token := t' } := by
  by_cases hsize : 2 ≤ providers.length ∧ providers.length ≤ w.maxDkgSize
  · refine ⟨hsize, ?_⟩
    simp only [initiateRitual] at h
    rw [if_neg (not_not_intro hsize)] at h
    by_cases hdur : dur = 0
    · rw [if_pos hdur] at h; simp at h
    · rw [if_neg hdur] at h
      refine ⟨hdur, ?_⟩
      by_cases hkeys : providers.all (fun p => isProviderPublicKeySet w p) = true
      · rw [if_neg (not_not_intro hkeys)] at h
        by_cases hsort : strictlySorted providers = true
        · rw [if_neg (not_not_intro hsort)] at h
          cases htr : w.token.transferFrom s w.feeModelAddr w.feeModelAddr
              (getRitualCost w providers.length dur) with
          | error e => rw [htr] at h; simp at h
          | ok t' =>
            simp only [htr] at h
            by_cases hac : w.approvedControllers.contains ac = true
            · rw [if_neg (not_not_intro hac)] at h
              simp only [Except.ok.injEq, Prod.mk.injEq] at h
              exact ⟨t', rfl, h.1.symm⟩
            · rw [if_pos hac] at h
              simp at h
        · rw [if_pos hsort] at h; simp at h
      · rw [if_pos hkeys] at h; simp at h
  · simp only [initiateRitual] at h
    rw [if_pos hsize] at h
    simp at h

theorem processPendingFee_ok_rituals (w : World) (s : Address) (rid now : Nat)
    (w' : World) (evs : List Event)
    (h : processPendingFee w s rid now = .ok (w', evs)) :
    w'.rituals = w.rituals := by
  cases hr : w.rituals[rid]? with
  | none => simp [processPendingFee, hr] at h
  | some r =>
    simp only [processPendingFee, hr] at h
    by_cases h1 : getRitualState w rid now = .ACTIVE ∨
        getRitualState w rid now = .EXPIRED
    · rw [if_pos h1] at h
      simp only [Except.ok.injEq, Prod.mk.injEq] at h
      rw [← h.1]
    · rw [if_neg h1] at h
      by_cases h2 : getRitualState w rid now = .DKG_TIMEOUT ∨
          getRitualState w rid now = .DKG_INVALID
      · rw [if_pos h2] at h
        cases htr : w.token.transfer w.feeModelAddr r.initiator
            (alookup w.pendingFees rid -
              alookup w.pendingFees rid * (now - r.startTimestamp) /
                (r.endTimestamp - r.startTimestamp)) with
        | error e => rw [htr] at h; simp at h
        | ok t' =>
          simp only [htr, Except.ok.injEq, Prod.mk.injEq] at h
          rw [← h.1]
      · rw [if_neg h2] at h; simp at h

theorem withdrawTokens_ok_rituals (w : World) (s : Address) (amount : Nat)
    (w' : World) (evs : List Event)
    (h : withdrawTokens w s amount = .ok (w', evs)) :
    w'.rituals = w.rituals := by
  simp only [withdrawTokens] at h
  by_cases h1 : s = w.feeModelOwner
  · rw [if_neg (by simpa using h1)] at h
    by_cases h2 : w.token.balanceOf w.feeModelAddr - w.totalPendingFees < amount
    · rw [if_pos h2] at h; simp at h
    · rw [if_neg h2] at h
      cases htr : w.token.transfer w.feeModelAddr s amount with
      | error e => rw [htr] at h; simp at h
      | ok t' =>
        simp only [htr, Except.ok.injEq, Prod.mk.injEq] at h
        rw [← h.1]
  · rw [if_pos (by simpa using h1)] at h; simp at h

theorem reportMissingTranscript_ok_shape (w : World) (s : Address)
    (rid : Nat) (alleged : List Address) (now : Nat) (w' : World)
    (evs : List Event)
    (h : reportMissingTranscript w s rid alleged now = .ok (w', evs)) :
    getRitualState w rid now = .DKG_TIMEOUT ∧
    ¬ rid ∈ w.reportedRituals ∧
    ∃ r, w.rituals[rid]? = some r ∧
      w' = { w with
        infractions := w.infractions ++
          (alleged.filter (fun a =>
            match r.participants.find? (fun p => p.provider = a) with
            | some p => p.transcript = []
            | none => false)).map (fun a => (rid, a, 0)),
        reportedRituals := rid :: w.reportedRituals } := by
  by_cases hst : getRitualState w rid now = .DKG_TIMEOUT
  · refine ⟨hst, ?_⟩
    simp only [reportMissingTranscript] at h
    rw [if_neg (not_not_intro hst)] at h
    by_cases hrep : rid ∈ w.reportedRituals
    · rw [if_pos hrep] at h; simp at h
    · rw [if_neg hrep] at h
      refine ⟨hrep, ?_⟩
      cases hr : w.rituals[rid]? with
      | none => simp only [hr] at h; simp at h
      | some r =>
        simp only [hr, Except.ok.injEq, Prod.mk.injEq] at h
        exact ⟨r, rfl, h.1.symm⟩
  · simp [reportMissingTranscript, hst] at h

theorem reportMissingTranscript_ok_rituals (w : World) (s : Address)
    (rid : Nat) (alleged : List Address) (now : Nat) (w' : World)
    (evs : List Event)
    (h : reportMissingTranscript w s rid alleged now = .ok (w', evs)) :
    w'.rituals = w.rituals := by
  obtain ⟨-, -, r, -, hw'⟩ := reportMissingTranscript_ok_shape w s rid
    alleged now w' evs h
  rw [hw']


/-! ## Step preservation of the ritual-table invariants -/

theorem stepPreserves_of_rituals_eq (w w' : World)
    (h : w'.rituals = w.rituals) : StepPreserves w w' := by
  refine ⟨?_, ?_⟩
  · intro rid r hr
    exact ⟨r, by rw [h]; exact hr, rfl, rfl, rfl, id, id⟩
  · intro rid r' hr'
    exact Or.inl ⟨r', by rw [← h]; exact hr'⟩

theorem length_freshParticipants (providers : List Address) :
    (freshParticipants providers).length = providers.length := by
  simp [freshParticipants]

theorem countTranscripts_freshParticipants (providers : List Address) :
    countTranscripts (freshParticipants providers) = 0 := by
  induction providers with
  | nil => simp [freshParticipants, countTranscripts]
  | cons a rest ih =>
    simp only [freshParticipants, List.map_cons] at ih ⊢
    rw [countTranscripts_cons]
    simpa using ih

theorem countAggregations_freshParticipants (providers : List Address) :
    countAggregations (freshParticipants providers) = 0 := by
  induction providers with
  | nil => simp [freshParticipants, countAggregations]
  | cons a rest ih =>
    simp only [freshParticipants, List.map_cons] at ih ⊢
    rw [countAggregations_cons]
    simpa using ih

theorem newRitual_WF (s : Address) (providers : List Address) (auth : Address)
    (dur : Nat) (ac : Address) (now : Nat) :
    RitualWF (newRitual s providers auth dur ac now) ∧
    (newRitual s providers auth dur ac now).threshold =
      (newRitual s providers auth dur ac now).dkgSize / 2 + 1 := by
  refine ⟨⟨?_, ?_, ?_⟩, rfl⟩
  · exact length_freshParticipants providers
  · exact countTranscripts_freshParticipants providers
  · exact countAggregations_freshParticipants providers

theorem stepOp_of_error (w : World) (op : Op) (e : String)
    (h : applyOp w op = .error e) : stepOp w op = w := by
  simp [stepOp, h]

theorem stepOp_of_ok (w : World) (op : Op) (w' : World) (evs : List Event)
    (h : applyOp w op = .ok (w', evs)) : stepOp w op = w' := by
  simp [stepOp, h]

theorem stepPreserves_set (w : World) (rid : Nat) (r r' : Ritual)
    (hr : w.rituals[rid]? = some r)
    (hth : r'.threshold = r.threshold) (hdk : r'.dkgSize = r.dkgSize)
    (hlen : r'.participants.length = r.participants.length)
    (hmis : r.aggregationMismatch = true → r'.aggregationMismatch = true)
    (hwf : RitualWF r → RitualWF r') :
    StepPreserves w { w with rituals := w.rituals.set rid r' } := by
  refine ⟨?_, ?_⟩
  · intro rid2 r2 h2
    by_cases he : rid2 = rid
    · subst he
      have hr2 : r2 = r := by
        rw [hr] at h2
        exact ((Option.some.injEq _ _).mp h2).symm
      subst hr2
      have hlt : rid2 < w.rituals.length := (List.getElem?_eq_some.mp hr).1
      refine ⟨r', ?_, hth, hdk, hlen, hmis, hwf⟩
      simp [List.getElem?_set_self, hlt]
    · refine ⟨r2, ?_, rfl, rfl, rfl, id, id⟩
      rw [List.getElem?_set_ne (fun hh => he hh.symm)]
      exact h2
  · intro rid2 r2' h2
    left
    have hlt : rid2 < w.rituals.length := by
      have := (List.getElem?_eq_some.mp h2).1
      simpa [List.length_set] using this
    exact ⟨w.rituals[rid2], List.getElem?_eq_getElem hlt⟩

theorem stepPreserves_append (w : World) (r : Ritual)
    (hwf : RitualWF r) (hth : r.threshold = r.dkgSize / 2 + 1)
    (w' : World) (hw' : w'.rituals = w.rituals ++ [r]) :
    StepPreserves w w' := by
  refine ⟨?_, ?_⟩
  · intro rid2 r2 h2
    have hlt : rid2 < w.rituals.length := (List.getElem?_eq_some.mp h2).1
    refine ⟨r2, ?_, rfl, rfl, rfl, id, id⟩
    rw [hw', List.getElem?_append]
    simp [hlt, h2]
  · intro rid2 r2' h2
    rw [hw'] at h2
    by_cases hlt : rid2 < w.rituals.length
    · exact Or.inl ⟨w.rituals[rid2], List.getElem?_eq_getElem hlt⟩
    · right
      have hr2 : r2' = r := by
        rw [List.getElem?_append_right (Nat.le_of_not_lt hlt)] at h2
        have hlen := (List.getElem?_eq_some.mp h2).1
        have hi : rid2 - w.rituals.length = 0 := by simpa using hlen
        rw [hi] at h2
        simpa using h2.symm
      subst hr2
      exact ⟨hwf, hth⟩

theorem stepOp_preserves (w : World) (op : Op) :
    StepPreserves w (stepOp w op) := by
  cases op with
  | setProviderPublicKey s k =>
    exact stepPreserves_of_rituals_eq _ _ rfl
  | tokenApprove s spender amount =>
    exact stepPreserves_of_rituals_eq _ _ rfl
  | tokenTransfer s toAddr amount =>
    cases htr : w.token.transfer s toAddr amount with
    | error e =>
      rw [stepOp_of_error w _ e (by simp [applyOp, htr])]
      exact stepPreserves_of_rituals_eq _ _ rfl
    | ok t' =>
      rw [stepOp_of_ok w _ { w with token := t' } [] (by simp [applyOp, htr])]
      exact stepPreserves_of_rituals_eq _ _ rfl
  | processPendingFee s rid now =>
    cases happ : processPendingFee w s rid now with
    | error e =>
      rw [stepOp_of_error w _ e (by exact happ)]
      exact stepPreserves_of_rituals_eq _ _ rfl
    | ok pr =>
      obtain ⟨w', evs⟩ := pr
      rw [stepOp_of_ok w _ w' evs (by exact happ)]
      exact stepPreserves_of_rituals_eq _ _
        (processPendingFee_ok_rituals w s rid now w' evs happ)
  | withdrawTokens s amount =>
    cases happ : withdrawTokens w s amount with
    | error e =>
      rw [stepOp_of_error w _ e (by exact happ)]
      exact stepPreserves_of_rituals_eq _ _ rfl
    | ok pr =>
      obtain ⟨w', evs⟩ := pr
      rw [stepOp_of_ok w _ w' evs (by exact happ)]
      exact stepPreserves_of_rituals_eq _ _
        (withdrawTokens_ok_rituals w s amount w' evs happ)
  | reportMissingTranscript s rid alleged now =>
    cases happ : reportMissingTranscript w s rid alleged now with
    | error e =>
      rw [stepOp_of_error w _ e (by exact happ)]
      exact stepPreserves_of_rituals_eq _ _ rfl
    | ok pr =>
      obtain ⟨w', evs⟩ := pr
      rw [stepOp_of_ok w _ w' evs (by exact happ)]
      exact stepPreserves_of_rituals_eq _ _
        (reportMissingTranscript_ok_rituals w s rid alleged now w' evs happ)
  | initiateRitual s providers auth dur ac now =>
    cases happ : initiateRitual w s providers auth dur ac now with
    | error e =>
      rw [stepOp_of_error w _ e (by exact happ)]
      exact stepPreserves_of_rituals_eq _ _ rfl
    | ok pr =>
      obtain ⟨w', evs⟩ := pr
      rw [stepOp_of_ok w _ w' evs (by exact happ)]
      obtain ⟨-, -, t', -, hw'⟩ := initiateRitual_ok_shape w s providers auth
        dur ac now w' evs happ
      obtain ⟨hwf, hth⟩ := newRitual_WF s providers auth dur ac now
      exact stepPreserves_append w _ hwf hth w' (by rw [hw'])
  | postTranscript s rid t now =>
    cases happ : postTranscript w s rid t now with
    | error e =>
      rw [stepOp_of_error w _ e (by exact happ)]
      exact stepPreserves_of_rituals_eq _ _ rfl
    | ok pr =>
      obtain ⟨w', evs⟩ := pr
      rw [stepOp_of_ok w _ w' evs (by exact happ)]
      obtain ⟨-, htt, r, ps, hr, hup, hw', -⟩ := postTranscript_ok_shape w s
        rid t now w' evs happ
      obtain ⟨hlen, hct, hca, -⟩ :=
        updateParticipant_transcript_ok r.participants s t ps htt hup
      rw [hw']
      refine stepPreserves_set w rid r (bumpTranscript r ps) hr rfl rfl
        hlen (fun hm => hm) ?_
      rintro ⟨hl, hc1, hc2⟩
      refine ⟨?_, ?_, ?_⟩
      · simpa [bumpTranscript, hlen] using hl
      · simp only [bumpTranscript]
        rw [hct, hc1]
      · simp only [bumpTranscript]
        rw [hca, hc2]
  | postAggregation s rid pay pk drsk now =>
    cases happ : postAggregation w s rid pay pk drsk now with
    | error e =>
      rw [stepOp_of_error w _ e (by exact happ)]
      exact stepPreserves_of_rituals_eq _ _ rfl
    | ok pr =>
      obtain ⟨w', evs⟩ := pr
      rw [stepOp_of_ok w _ w' evs (by exact happ)]
      obtain ⟨-, r, ps, hr, hup, hcases⟩ := postAggregation_ok_shape w s rid
        pay pk drsk now w' evs happ
      obtain ⟨hlen, hct, hca, -⟩ :=
        updateParticipant_aggregation_ok r.participants s drsk ps hup
      rcases hcases with ⟨hz, hw'⟩ | ⟨hz, hmm, hw', -⟩ | ⟨hz, hmm, hw'⟩
      · rw [hw']
        refine stepPreserves_set w rid r (aggFirst r ps pay pk) hr rfl rfl
          hlen (fun hm => hm) ?_
        rintro ⟨hl, hc1, hc2⟩
        refine ⟨?_, ?_, ?_⟩
        · simpa [aggFirst, hlen] using hl
        · simp only [aggFirst]
          rw [hct, hc1]
        · simp only [aggFirst]
          rw [hca, hc2, hz]
      · rw [hw']
        refine stepPreserves_set w rid r (aggMismatch r ps) hr rfl rfl
          hlen (fun _ => rfl) ?_
        rintro ⟨hl, hc1, hc2⟩
        refine ⟨?_, ?_, ?_⟩
        · simpa [aggMismatch, hlen] using hl
        · simp only [aggMismatch]
          rw [hct, hc1]
        · simp only [aggMismatch]
          rw [hca, hc2]
      · rw [hw']
        refine stepPreserves_set w rid r (aggNext r ps) hr rfl rfl
          hlen (fun hm => hm) ?_
        rintro ⟨hl, hc1, hc2⟩
        refine ⟨?_, ?_, ?_⟩
        · simpa [aggNext, hlen] using hl
        · simp only [aggNext]
          rw [hct, hc1]
        · simp only [aggNext]
          rw [hca, hc2]

theorem stepOp_WorldWF (w : World) (op : Op) (hw : WorldWF w) :
    WorldWF (stepOp w op) := by
  intro r' hr'
  obtain ⟨hfwd, hbwd⟩ := stepOp_preserves w op
  obtain ⟨rid, hrid⟩ := List.mem_iff_getElem?.mp hr'
  rcases hbwd rid r' hrid with ⟨r, hr⟩ | ⟨hwf, -⟩
  · obtain ⟨r'', hr'', -, -, -, -, hwfp⟩ := hfwd rid r hr
    have : r'' = r' := by
      rw [hrid] at hr''
      exact ((Option.some.injEq _ _).mp hr'').symm
    subst this
    exact hwfp (hw r (List.mem_iff_getElem?.mpr ⟨rid, hr⟩))
  · exact hwf

theorem stepOp_ThresholdWF (w : World) (op : Op) (hw : ThresholdWF w)
    (hwf : WorldWF w) : ThresholdWF (stepOp w op) := by
  intro r' hr'
  obtain ⟨hfwd, hbwd⟩ := stepOp_preserves w op
  obtain ⟨rid, hrid⟩ := List.mem_iff_getElem?.mp hr'
  rcases hbwd rid r' hrid with ⟨r, hr⟩ | ⟨hwfr, hth⟩
  · obtain ⟨r'', hr'', hth, hdk, hlen, -, hwfp⟩ := hfwd rid r hr
    have : r'' = r' := by
      rw [hrid] at hr''
      exact ((Option.some.injEq _ _).mp hr'').symm
    subst this
    have hmem : r ∈ w.rituals := List.mem_iff_getElem?.mpr ⟨rid, hr⟩
    obtain ⟨hthr, hlenr⟩ := hw r hmem
    exact ⟨by rw [hth, hdk, hthr], by rw [hlen, hdk, hlenr]⟩
  · exact ⟨hth, hwfr.1⟩

theorem runOps_WorldWF (w : World) (ops : List Op) (hw : WorldWF w) :
    WorldWF (runOps w ops) := by
  induction ops generalizing w with
  | nil => exact hw
  | cons op rest ih => exact ih (stepOp w op) (stepOp_WorldWF w op hw)

theorem runOps_ThresholdWF (w : World) (ops : List Op) (hw : ThresholdWF w)
    (hwf : WorldWF w) : ThresholdWF (runOps w ops) := by
  induction ops generalizing w with
  | nil => exact hw
  | cons op rest ih =>
    exact ih (stepOp w op) (stepOp_ThresholdWF w op hw hwf)
      (stepOp_WorldWF w op hwf)

theorem runOps_mismatch_permanent (w : World) (ops : List Op) (rid : Nat)
    (r : Ritual) (hr : w.rituals[rid]? = some r)
    (hm : r.aggregationMismatch = true) :
    ∃ r', (runOps w ops).rituals[rid]? = some r' ∧
      r'.aggregationMismatch = true := by
  induction ops generalizing w r with
  | nil => exact ⟨r, hr, hm⟩
  | cons op rest ih =>
    obtain ⟨hfwd, -⟩ := stepOp_preserves w op
    obtain ⟨r1, hr1, -, -, -, hmis, -⟩ := hfwd rid r hr
    exact ih (stepOp w op) r1 hr1 (hmis hm)

/-! ## C1: the ritual state derivation -/

/-- C1: for every ritual id and query time, `getRitualState` follows the
ordered derivation cascade: unknown id gives NON_INITIATED; else an
aggregation mismatch gives DKG_INVALID; else a passed
`startTimestamp + timeout` deadline without completed aggregation gives
DKG_TIMEOUT; else completed aggregation gives ACTIVE, or EXPIRED once
`now` exceeds `endTimestamp`; else completed transcripts give
DKG_AWAITING_AGGREGATIONS; else DKG_AWAITING_TRANSCRIPTS.  The state is
a pure function of the stored ritual fields and the supplied wall-clock
time. -/
theorem getRitualState_follows_ordered_derivation (w : World) (rid now : Nat) :
    (w.rituals[rid]? = none → getRitualState w rid now = .NON_INITIATED) ∧
    (∀ r, w.rituals[rid]? = some r →
      (r.aggregationMismatch = true →
        getRitualState w rid now = .DKG_INVALID) ∧
      (r.aggregationMismatch = false →
        r.startTimestamp + w.timeout < now →
        ¬ r.totalAggregations = r.dkgSize →
        getRitualState w rid now = .DKG_TIMEOUT) ∧
      (r.aggregationMismatch = false → r.totalAggregations = r.dkgSize →
        (now ≤ r.endTimestamp → getRitualState w rid now = .ACTIVE) ∧
        (r.endTimestamp < now → getRitualState w rid now = .EXPIRED)) ∧
      (r.aggregationMismatch = false →
        ¬ r.startTimestamp + w.timeout < now →
        ¬ r.totalAggregations = r.dkgSize → r.totalTranscripts = r.dkgSize →
        getRitualState w rid now = .DKG_AWAITING_AGGREGATIONS) ∧
      (r.aggregationMismatch = false →
        ¬ r.startTimestamp + w.timeout < now →
        ¬ r.totalAggregations = r.dkgSize → ¬ r.totalTranscripts = r.dkgSize →
        getRitualState w rid now = .DKG_AWAITING_TRANSCRIPTS)) := by
  refine ⟨fun h => by simp [getRitualState, h], fun r hr => ?_⟩
  refine ⟨fun hm => by simp [getRitualState, hr, hm], ?_, ?_, ?_, ?_⟩
  · intro hm ht ha
    simp [getRitualState, hr, hm, ht, ha]
  · intro hm ha
    constructor
    · intro hnow
      simp [getRitualState, hr, hm, ha, Nat.not_lt.mpr hnow]
    · intro hnow
      simp [getRitualState, hr, hm, ha, hnow]
  · intro hm ht ha htr
    simp [getRitualState, hr, hm, ht, ha, htr]
  · intro hm ht ha htr
    simp [getRitualState, hr, hm, ht, ha, htr]

/-! ## C8: participant pagination -/

/-- C8: for every ritual and every `startIndex < n`, `getParticipants`
returns exactly `min maxResults (n - startIndex)` entries starting at
`startIndex` in the stored (ascending) order, all remaining entries when
`maxResults = 0`, and empty transcript fields when
`includeTranscript = false`. -/
theorem getParticipants_pagination (w : World) (rid startIndex maxResults : Nat)
    (inc : Bool) (r : Ritual) (hr : w.rituals[rid]? = some r)
    (hs : startIndex < r.participants.length) :
    ∃ page, getParticipants w rid startIndex maxResults inc = .ok page ∧
      (¬ maxResults = 0 →
        page.length = min maxResults (r.participants.length - startIndex)) ∧
      (maxResults = 0 → page.length = r.participants.length - startIndex) ∧
      (∀ i, i < page.length →
        page[i]? = (r.participants[startIndex + i]?).map (elideTranscript inc)) ∧
      (inc = false → ∀ p ∈ page, p.transcript = []) := by
  have hnot : ¬ (0 < r.participants.length ∧
      r.participants.length ≤ startIndex) := by
    intro hcon
    exact absurd hs (Nat.not_lt.mpr hcon.2)
  refine ⟨((if maxResults = 0 then r.participants.drop startIndex
      else (r.participants.drop startIndex).take maxResults).map
        (elideTranscript inc)),
    by simp [getParticipants, hr, hnot], ?_, ?_, ?_, ?_⟩
  · intro hm
    simp [hm, List.length_take, List.length_drop]
  · intro hm
    simp [hm, List.length_drop]
  · intro i hi
    by_cases hm : maxResults = 0
    · simp only [hm, if_true, reduceIte, List.getElem?_map, List.getElem?_drop]
    · have hi' : i < maxResults := by
        simp only [hm, if_false, reduceIte, List.length_map,
          List.length_take] at hi
        exact Nat.lt_of_lt_of_le hi (Nat.min_le_left _ _)
      simp only [hm, if_false, reduceIte, List.getElem?_map]
      rw [List.getElem?_take]
      simp [hi', List.getElem?_drop]
  · intro hinc p hp
    by_cases hm : maxResults = 0 <;>
      · simp only [hm, reduceIte, List.mem_map] at hp
        obtain ⟨q, _, rfl⟩ := hp
        simp [elideTranscript, hinc]

/-! ## C10: provider public-key registration -/

/-- C10: for a caller with no key yet, `setProviderPublicKey` succeeds,
flips `isProviderPublicKeySet` from false to true, emits exactly one
`ParticipantPublicKeySet` event whose ritual id is the current
`numberOfRituals`, and afterwards `getProviderPublicKey` at that ritual
id returns the submitted key. -/
theorem setProviderPublicKey_registers (w : World) (caller : Address)
    (key : Bytes) (h : isProviderPublicKeySet w caller = false) :
    ∃ w', setProviderPublicKey w caller key =
        .ok (w', [.ParticipantPublicKeySet (numberOfRituals w) caller key]) ∧
      isProviderPublicKeySet w' caller = true ∧
      getProviderPublicKey w' caller (numberOfRituals w) = some key := by
  refine ⟨_, rfl, ?_, ?_⟩
  · simp [isProviderPublicKeySet, setProviderPublicKey]
  · simp only [getProviderPublicKey, setProviderPublicKey, List.filter_append]
    have : List.filter
        (fun e => decide (e.1 = caller ∧ e.2.1 ≤ numberOfRituals w))
        [(caller, numberOfRituals w, key)] = [(caller, numberOfRituals w, key)] := by
      simp
    rw [this, List.getLast?_concat]
    rfl

/-! ## C2: a divergent aggregation poisons the ritual permanently -/

/-- C2: a `postAggregation` whose payload digest differs from the first
submitter's reference digest succeeds (is recorded), sets
`aggregationMismatch`, and emits `EndRitual` with `successful = false`;
a set mismatch flag makes `getRitualState` answer `DKG_INVALID` at every
query time; and the flag survives every subsequent sequence of
transactions. -/
theorem postAggregation_mismatch_permanent :
    (∀ (w : World) (s : Address) (rid : Nat) (pay pk drsk : Bytes)
       (now : Nat) (r : Ritual) (p : Participant),
       w.rituals[rid]? = some r →
       getRitualState w rid now = .DKG_AWAITING_AGGREGATIONS →
       r.participants.find? (fun q => q.provider = s) = some p →
       p.aggregated = false →
       ¬ r.totalAggregations = 0 →
       ¬ keccakDigest pay = keccakDigest r.aggregatedTranscript →
       ∃ ps, postAggregation w s rid pay pk drsk now =
           .ok ({ w with rituals := w.rituals.set rid (aggMismatch r ps) },
                [.AggregationPosted rid s (keccakDigest pay),
                 .EndRitual rid false]) ∧
         (aggMismatch r ps).aggregationMismatch = true) ∧
    (∀ (w : World) (rid now : Nat) (r : Ritual),
       w.rituals[rid]? = some r → r.aggregationMismatch = true →
       getRitualState w rid now = .DKG_INVALID) ∧
    (∀ (w : World) (ops : List Op) (rid : Nat) (r : Ritual),
       w.rituals[rid]? = some r → r.aggregationMismatch = true →
       ∃ r', (runOps w ops).rituals[rid]? = some r' ∧
         r'.aggregationMismatch = true) := by
  refine ⟨?_, ?_, ?_⟩
  · intro w s rid pay pk drsk now r p hr hst hfind hpagg hz hmm
    obtain ⟨ps, hup⟩ := updateParticipant_ok_of_find r.participants s
      (aggregationUpd drsk) p
      { p with aggregated := true, decryptionRequestStaticKey := drsk }
      hfind (by simp [aggregationUpd, hpagg])
    refine ⟨ps, ?_, rfl⟩
    simp only [postAggregation]
    rw [if_neg (not_not_intro hst)]
    simp only [hr, hup]
    rw [if_neg hz, if_pos hmm]
  · intro w rid now r hr hm
    simp [getRitualState, hr, hm]
  · intro w ops rid r hr hm
    exact runOps_mismatch_permanent w ops rid r hr hm

/-! ## C3: initiation precondition order and atomicity -/

/-- C3: `initiateRitual` rejects, in this order and with these reasons:
bad participant count, zero duration, a participant without a registered
key, an unsorted participant list; a failing fee transfer propagates its
own error; and every rejected initiation leaves the state unchanged
(all-or-nothing). -/
theorem initiateRitual_precondition_order (w : World) (s : Address)
    (providers : List Address) (auth : Address) (dur : Nat) (ac : Address)
    (now : Nat) :
    (¬ (2 ≤ providers.length ∧ providers.length ≤ w.maxDkgSize) →
      initiateRitual w s providers auth dur ac now =
        .error "Invalid number of nodes") ∧
    ((2 ≤ providers.length ∧ providers.length ≤ w.maxDkgSize) → dur = 0 →
      initiateRitual w s providers auth dur ac now =
        .error "Invalid ritual duration") ∧
    ((2 ≤ providers.length ∧ providers.length ≤ w.maxDkgSize) → ¬ dur = 0 →
      ¬ providers.all (fun p => isProviderPublicKeySet w p) = true →
      initiateRitual w s providers auth dur ac now =
        .error "Provider has not set their public key") ∧
    ((2 ≤ providers.length ∧ providers.length ≤ w.maxDkgSize) → ¬ dur = 0 →
      providers.all (fun p => isProviderPublicKeySet w p) = true →
      ¬ strictlySorted providers = true →
      initiateRitual w s providers auth dur ac now =
        .error "Providers must be sorted") ∧
    (∀ e, (2 ≤ providers.length ∧ providers.length ≤ w.maxDkgSize) →
      ¬ dur = 0 →
      providers.all (fun p => isProviderPublicKeySet w p) = true →
      strictlySorted providers = true →
      w.token.transferFrom s w.feeModelAddr w.feeModelAddr
        (getRitualCost w providers.length dur) = .error e →
      initiateRitual w s providers auth dur ac now = .error e) ∧
    (∀ e, initiateRitual w s providers auth dur ac now = .error e →
      stepOp w (.initiateRitual s providers auth dur ac now) = w) := by
  refine ⟨?_, ?_, ?_, ?_, ?_, ?_⟩
  · intro hsize
    simp only [initiateRitual]
    rw [if_pos hsize]
  · intro hsize hdur
    simp only [initiateRitual]
    rw [if_neg (not_not_intro hsize), if_pos hdur]
  · intro hsize hdur hkeys
    simp only [initiateRitual]
    rw [if_neg (not_not_intro hsize), if_neg hdur, if_pos hkeys]
  · intro hsize hdur hkeys hsort
    simp only [initiateRitual]
    rw [if_neg (not_not_intro hsize), if_neg hdur,
      if_neg (not_not_intro hkeys), if_pos hsort]
  · intro e hsize hdur hkeys hsort htr
    simp only [initiateRitual]
    rw [if_neg (not_not_intro hsize), if_neg hdur,
      if_neg (not_not_intro hkeys), if_neg (not_not_intro hsort)]
    simp only [htr]
  · intro e herr
    exact stepOp_of_error w _ e (by exact herr)

/-! ## C4: failure settlement refunds time-proportionally -/

/-- C4: for a ritual in a terminal failure state with pending fee `F`
over total duration `D = endTimestamp - startTimestamp`, settling the
pending fee is caller-independent (permissionless), refunds the initiator
`F - F * elapsed / D` where `elapsed = now - startTimestamp`, keeps the
deduction with the fee model, zeroes `pendingFees[ritualId]` and lowers
`totalPendingFees` by `F`. -/
theorem processPendingFee_failure_refund (w : World) (s : Address)
    (rid now : Nat) (r : Ritual) (F : Nat)
    (hr : w.rituals[rid]? = some r)
    (hst : getRitualState w rid now = .DKG_TIMEOUT ∨
           getRitualState w rid now = .DKG_INVALID)
    (hF : alookup w.pendingFees rid = F)
    (hbal : F - F * (now - r.startTimestamp) /
        (r.endTimestamp - r.startTimestamp) ≤
      w.token.balanceOf w.feeModelAddr)
    (hne : ¬ r.initiator = w.feeModelAddr) :
    (∀ s2 : Address, processPendingFee w s2 rid now =
      processPendingFee w s rid now) ∧
    ∃ w', processPendingFee w s rid now = .ok (w', []) ∧
      w'.token.balanceOf r.initiator = w.token.balanceOf r.initiator +
        (F - F * (now - r.startTimestamp) /
          (r.endTimestamp - r.startTimestamp)) ∧
      w'.token.balanceOf w.feeModelAddr =
        w.token.balanceOf w.feeModelAddr -
        (F - F * (now - r.startTimestamp) /
          (r.endTimestamp - r.startTimestamp)) ∧
      alookup w'.pendingFees rid = 0 ∧
      w'.totalPendingFees = w.totalPendingFees - F := by
  refine ⟨fun s2 => rfl, ?_⟩
  have hno : ¬ (getRitualState w rid now = .ACTIVE ∨
      getRitualState w rid now = .EXPIRED) := by
    rcases hst with h | h <;> simp [h]
  simp only [processPendingFee, hr, hF]
  rw [if_neg hno, if_pos hst]
  simp only [TokenState.transfer]
  rw [if_neg (Nat.not_lt.mpr hbal)]
  refine ⟨_, rfl, ?_, ?_, ?_, rfl⟩
  · show alookup (aset (aset w.token.balances w.feeModelAddr
        (w.token.balanceOf w.feeModelAddr -
          (F - F * (now - r.startTimestamp) /
            (r.endTimestamp - r.startTimestamp)))) r.initiator
        (alookup (aset w.token.balances w.feeModelAddr
          (w.token.balanceOf w.feeModelAddr -
            (F - F * (now - r.startTimestamp) /
              (r.endTimestamp - r.startTimestamp)))) r.initiator +
          (F - F * (now - r.startTimestamp) /
            (r.endTimestamp - r.startTimestamp)))) r.initiator =
      w.token.balanceOf r.initiator +
        (F - F * (now - r.startTimestamp) /
          (r.endTimestamp - r.startTimestamp))
    rw [alookup_aset_self, alookup_aset_ne _ _ _ _ hne]
    rfl
  · show alookup (aset (aset w.token.balances w.feeModelAddr
        (w.token.balanceOf w.feeModelAddr -
          (F - F * (now - r.startTimestamp) /
            (r.endTimestamp - r.startTimestamp)))) r.initiator
        (alookup (aset w.token.balances w.feeModelAddr
          (w.token.balanceOf w.feeModelAddr -
            (F - F * (now - r.startTimestamp) /
              (r.endTimestamp - r.startTimestamp)))) r.initiator +
          (F - F * (now - r.startTimestamp) /
            (r.endTimestamp - r.startTimestamp)))) w.feeModelAddr =
      w.token.balanceOf w.feeModelAddr -
        (F - F * (now - r.startTimestamp) /
          (r.endTimestamp - r.startTimestamp))
    rw [alookup_aset_ne _ _ _ _ (fun hh => hne hh.symm), alookup_aset_self]
  · exact alookup_aset_self w.pendingFees rid 0

/-! ## C5: pending fees can never be withdrawn -/

/-- C5: `withdrawTokens` rejects any caller other than the authorized
treasury role; for the authorized caller it rejects with a named reason
every amount exceeding `contractBalance - totalPendingFees`; and every
successful withdrawal respects that bound, so reserved pending fees can
never be withdrawn. -/
theorem withdrawTokens_protects_pending (w : World) (s : Address)
    (amount : Nat) :
    (¬ s = w.feeModelOwner →
      withdrawTokens w s amount = .error "Caller is not authorized") ∧
    (s = w.feeModelOwner →
      w.token.balanceOf w.feeModelAddr - w.totalPendingFees < amount →
      withdrawTokens w s amount = .error "Can't withdraw pending fees") ∧
    (∀ w' evs, withdrawTokens w s amount = .ok (w', evs) →
      s = w.feeModelOwner ∧
      amount ≤ w.token.balanceOf w.feeModelAddr - w.totalPendingFees) := by
  refine ⟨?_, ?_, ?_⟩
  · intro hs
    simp only [withdrawTokens]
    rw [if_pos hs]
  · intro hs hlt
    simp only [withdrawTokens]
    rw [if_neg (not_not_intro hs), if_pos hlt]
  · intro w' evs h
    by_cases hs : s = w.feeModelOwner
    · refine ⟨hs, ?_⟩
      by_cases hlt : w.token.balanceOf w.feeModelAddr -
          w.totalPendingFees < amount
      · simp only [withdrawTokens] at h
        rw [if_neg (not_not_intro hs), if_pos hlt] at h
        simp at h
      · exact Nat.le_of_not_lt hlt
    · simp only [withdrawTokens] at h
      rw [if_pos hs] at h
      simp at h

/-! ## C6: submission counters are capped and write-once -/

/-- C6: in every reachable state, `totalTranscripts` and
`totalAggregations` never exceed the ritual's participant count; a
participant that already posted a transcript gets rejected with
"Node already posted transcript" on a second attempt while the ritual is
still collecting transcripts; and once `totalTranscripts` equals the
ritual size every further `postTranscript` is rejected with
"Not waiting for transcripts". -/
theorem transcript_aggregation_caps :
    (∀ (timeout maxDkg feeRate : Nat) (fmA fmO : Address)
       (ctrls : List Address) (tok : TokenState) (ops : List Op),
       ∀ r ∈ (runOps (World.init timeout maxDkg feeRate fmA fmO ctrls tok)
           ops).rituals,
         r.totalTranscripts ≤ r.participants.length ∧
         r.totalAggregations ≤ r.participants.length) ∧
    (∀ (w : World) (s : Address) (rid : Nat) (t t2 : Bytes) (now now2 : Nat)
       (w' : World) (evs : List Event),
       postTranscript w s rid t now = .ok (w', evs) → ¬ t2 = [] →
       getRitualState w' rid now2 = .DKG_AWAITING_TRANSCRIPTS →
       postTranscript w' s rid t2 now2 =
         .error "Node already posted transcript") ∧
    (∀ (w : World) (s : Address) (rid : Nat) (t : Bytes) (now : Nat)
       (r : Ritual), w.rituals[rid]? = some r →
       r.totalTranscripts = r.dkgSize →
       postTranscript w s rid t now = .error "Not waiting for transcripts") := by
  refine ⟨?_, ?_, ?_⟩
  · intro timeout maxDkg feeRate fmA fmO ctrls tok ops r hmem
    have hwf : WorldWF (runOps (World.init timeout maxDkg feeRate fmA fmO
        ctrls tok) ops) := by
      apply runOps_WorldWF
      intro r2 hr2
      simp [World.init] at hr2
    obtain ⟨hlen, hct, hca⟩ := hwf r hmem
    constructor
    · rw [← hct]
      exact List.length_filter_le _ r.participants
    · rw [← hca]
      exact List.length_filter_le _ r.participants
  · intro w s rid t t2 now now2 w' evs h ht2 hst2
    obtain ⟨-, htt, r, ps, hr, hup, hw', -⟩ :=
      postTranscript_ok_shape w s rid t now w' evs h
    obtain ⟨-, -, -, p, -, -, hfind'⟩ :=
      updateParticipant_transcript_ok r.participants s t ps htt hup
    have hlt : rid < w.rituals.length := (List.getElem?_eq_some.mp hr).1
    have hr' : w'.rituals[rid]? = some (bumpTranscript r ps) := by
      rw [hw']
      simp [List.getElem?_set_self, hlt]
    simp only [postTranscript]
    rw [if_neg (not_not_intro hst2)]
    simp only [hr']
    rw [if_neg ht2]
    have herr : updateParticipant (bumpTranscript r ps).participants s
        (transcriptUpd t2) = .error "Node already posted transcript" := by
      refine updateParticipant_error_of_f_error ps s (transcriptUpd t2)
        { p with transcript := t } _ hfind' ?_
      simp [transcriptUpd, htt]
    simp only [herr]
  · intro w s rid t now r hr htr
    have hnot : ¬ getRitualState w rid now = .DKG_AWAITING_TRANSCRIPTS := by
      simp only [getRitualState, hr]
      repeat' split
      all_goals simp_all
    simp only [postTranscript]
    rw [if_pos hnot]

/-! ## C7: the threshold is derived at creation and immutable -/

/-- C7: the ritual created by a successful `initiateRitual` has threshold
`floor(n/2) + 1` for its `n` participants; no transaction ever changes a
stored threshold; and in every reachable state every ritual's threshold
equals `floor(n/2) + 1` of its participant count. -/
theorem threshold_derived_and_immutable :
    (∀ (w : World) (s : Address) (providers : List Address) (auth : Address)
       (dur : Nat) (ac : Address) (now : Nat) (w' : World) (evs : List Event),
       initiateRitual w s providers auth dur ac now = .ok (w', evs) →
       ∃ r, w'.rituals[numberOfRituals w]? = some r ∧
         r.threshold = r.participants.length / 2 + 1 ∧
         r.participants.length = providers.length) ∧
    (∀ (w : World) (op : Op) (rid : Nat) (r : Ritual),
       w.rituals[rid]? = some r →
       ∃ r', (stepOp w op).rituals[rid]? = some r' ∧
         r'.threshold = r.threshold) ∧
    (∀ (timeout maxDkg feeRate : Nat) (fmA fmO : Address)
       (ctrls : List Address) (tok : TokenState) (ops : List Op),
       ∀ r ∈ (runOps (World.init timeout maxDkg feeRate fmA fmO ctrls tok)
           ops).rituals,
         r.threshold = r.participants.length / 2 + 1) := by
  refine ⟨?_, ?_, ?_⟩
  · intro w s providers auth dur ac now w' evs h
    obtain ⟨-, -, t', -, hw'⟩ := initiateRitual_ok_shape w s providers auth
      dur ac now w' evs h
    refine ⟨newRitual s providers auth dur ac now, ?_, ?_, ?_⟩
    · rw [hw']
      show (w.rituals ++ [newRitual s providers auth dur ac now])[w.rituals.length]? = _
      rw [List.getElem?_append_right (Nat.le_refl _)]
      simp
    · simp [newRitual, length_freshParticipants]
    · simp [newRitual, length_freshParticipants]
  · intro w op rid r hr
    obtain ⟨hfwd, -⟩ := stepOp_preserves w op
    obtain ⟨r', hr', hth, -⟩ := hfwd rid r hr
    exact ⟨r', hr', hth⟩
  · intro timeout maxDkg feeRate fmA fmO ctrls tok ops r hmem
    have hwf : WorldWF (World.init timeout maxDkg feeRate fmA fmO ctrls
        tok) := by
      intro r2 hr2
      simp [World.init] at hr2
    have hth : ThresholdWF (runOps (World.init timeout maxDkg feeRate fmA
        fmO ctrls tok) ops) := by
      apply runOps_ThresholdWF
      · intro r2 hr2
        simp [World.init] at hr2
      · exact hwf
    obtain ⟨h1, h2⟩ := hth r hmem
    rw [h1, h2]

/-! ## C9: infraction reporting is gated and one-shot per ritual -/

/-- C9: `reportMissingTranscript` rejects with "Ritual must have failed"
whenever the ritual is not in `DKG_TIMEOUT`; rejects a ritual already
reported with "Infraction already reported"; and a successful report
flags `(ritualId, provider, MISSING_TRANSCRIPT)` for every alleged
participant without a transcript, marks the ritual reported, and makes
any immediate second report fail with "Infraction already reported". -/
theorem reportMissingTranscript_behaviour (w : World) (s : Address)
    (rid : Nat) (alleged : List Address) (now : Nat) :
    (¬ getRitualState w rid now = .DKG_TIMEOUT →
      reportMissingTranscript w s rid alleged now =
        .error "Ritual must have failed") ∧
    (getRitualState w rid now = .DKG_TIMEOUT → rid ∈ w.reportedRituals →
      reportMissingTranscript w s rid alleged now =
        .error "Infraction already reported") ∧
    (∀ w' evs, reportMissingTranscript w s rid alleged now = .ok (w', evs) →
      (∀ a r p, w.rituals[rid]? = some r → a ∈ alleged →
        r.participants.find? (fun q => q.provider = a) = some p →
        p.transcript = [] → (rid, a, 0) ∈ w'.infractions) ∧
      rid ∈ w'.reportedRituals ∧
      ∀ (s2 : Address) (alleged2 : List Address),
        reportMissingTranscript w' s2 rid alleged2 now =
          .error "Infraction already reported") := by
  refine ⟨?_, ?_, ?_⟩
  · intro hst
    simp only [reportMissingTranscript]
    rw [if_pos hst]
  · intro hst hmem
    simp only [reportMissingTranscript]
    rw [if_neg (not_not_intro hst), if_pos hmem]
  · intro w' evs h
    obtain ⟨hst, hrep, r, hr, hw'⟩ :=
      reportMissingTranscript_ok_shape w s rid alleged now w' evs h
    refine ⟨?_, ?_, ?_⟩
    · intro a r2 p hr2 hmem hfind hpt
      have hr2r : r2 = r := by
        rw [hr] at hr2
        exact ((Option.some.injEq _ _).mp hr2).symm
      subst hr2r
      rw [hw']
      show (rid, a, 0) ∈ w.infractions ++ _
      refine List.mem_append.mpr (Or.inr ?_)
      refine List.mem_map.mpr ⟨a, ?_, rfl⟩
      refine List.mem_filter.mpr ⟨hmem, ?_⟩
      simp [hfind, hpt]
    · rw [hw']
      exact List.mem_cons_self rid w.reportedRituals
    · intro s2 alleged2
      have hrit : w'.rituals = w.rituals := by rw [hw']
      have htimeout : w'.timeout = w.timeout := by rw [hw']
      have hst' : getRitualState w' rid now = .DKG_TIMEOUT := by
        simp only [getRitualState] at hst ⊢
        rw [hrit, htimeout]
        exact hst
      have hmem' : rid ∈ w'.reportedRituals := by
        rw [hw']
        exact List.mem_cons_self rid w.reportedRituals
      simp only [reportMissingTranscript]
      rw [if_neg (not_not_intro hst'), if_pos hmem']

/-! ## Witnesses: the theorems applied to the concrete deployment -/

theorem getRitualState_follows_ordered_derivation_witness :
    getRitualState wEx0 5 7 = .NON_INITIATED :=
  (getRitualState_follows_ordered_derivation wEx0 5 7).1 (by decide)

theorem postAggregation_mismatch_permanent_witness :
    ∃ ps, postAggregation wExC 2 0 [9] [5] [6] 2 =
        .ok ({ wExC with rituals := wExC.rituals.set 0 (aggMismatch rExC ps) },
             [.AggregationPosted 0 2 (keccakDigest [9]), .EndRitual 0 false]) ∧
      (aggMismatch rExC ps).aggregationMismatch = true :=
  postAggregation_mismatch_permanent.1 wExC 2 0 [9] [5] [6] 2 rExC pExC
    (by decide) (by decide) (by decide) (by decide) (by decide) (by decide)

theorem initiateRitual_precondition_order_witness :
    initiateRitual wEx0 10 [] 10 5 50 0 = .error "Invalid number of nodes" :=
  (initiateRitual_precondition_order wEx0 10 [] 10 5 50 0).1 (by decide)

theorem processPendingFee_failure_refund_witness :
    (∀ s2 : Address, processPendingFee wExInvalid s2 0 2 =
      processPendingFee wExInvalid 99 0 2) ∧
    ∃ w', processPendingFee wExInvalid 99 0 2 = .ok (w', []) ∧
      w'.token.balanceOf 10 = wExInvalid.token.balanceOf 10 + 6 ∧
      w'.token.balanceOf 100 = wExInvalid.token.balanceOf 100 - 6 ∧
      alookup w'.pendingFees 0 = 0 ∧
      w'.totalPendingFees = wExInvalid.totalPendingFees - 10 :=
  processPendingFee_failure_refund wExInvalid 99 0 2 rExInvalid 10
    (by decide) (Or.inr (by decide)) (by decide) (by decide) (by decide)

theorem withdrawTokens_protects_pending_witness :
    withdrawTokens wEx 11 1 = .error "Can't withdraw pending fees" :=
  (withdrawTokens_protects_pending wEx 11 1).2.1 (by decide) (by decide)

theorem transcript_aggregation_caps_witness :
    postTranscript wExB 1 0 [3] 9 = .error "Not waiting for transcripts" :=
  transcript_aggregation_caps.2.2 wExB 1 0 [3] 9 rExB (by decide) (by decide)

theorem threshold_derived_and_immutable_witness :
    ∃ r', (stepOp wEx (.postTranscript 1 0 [3] 1)).rituals[0]? = some r' ∧
      r'.threshold = rEx.threshold :=
  threshold_derived_and_immutable.2.1 wEx (.postTranscript 1 0 [3] 1) 0 rEx
    (by decide)

theorem getParticipants_pagination_witness :
    ∃ page, getParticipants wExB 0 1 1 false = .ok page ∧
      (¬ (1 : Nat) = 0 →
        page.length = min 1 (rExB.participants.length - 1)) ∧
      ((1 : Nat) = 0 → page.length = rExB.participants.length - 1) ∧
      (∀ i, i < page.length →
        page[i]? = (rExB.participants[1 + i]?).map (elideTranscript false)) ∧
      (false = false → ∀ p ∈ page, p.transcript = []) :=
  getParticipants_pagination wExB 0 1 1 false rExB (by decide) (by decide)

theorem reportMissingTranscript_behaviour_witness :
    reportMissingTranscript wEx 7 0 [1, 2] 1 = .error "Ritual must have failed" :=
  (reportMissingTranscript_behaviour wEx 7 0 [1, 2] 1).1 (by decide)

theorem setProviderPublicKey_registers_witness :
    ∃ w', setProviderPublicKey wEx0 1 [9] =
        .ok (w', [.ParticipantPublicKeySet (numberOfRituals wEx0) 1 [9]]) ∧
      isProviderPublicKeySet w' 1 = true ∧
      getProviderPublicKey w' 1 (numberOfRituals wEx0) = some [9] :=
  setProviderPublicKey_registers wEx0 1 [9] (by decide)
